import Mathlib

/-!
Verification development for the http-micro middleware/routing library.

Strings from the TypeScript source are modelled as lists of characters
(`Str`).  Each definition below is a shallow embedding of a function of
the repository; the embedded file and lines are named in its doc comment.
-/

namespace HttpMicro

/-- JavaScript strings, modelled as character lists. -/
abbrev Str := List Char

/-- Coerce a Lean string literal into the model's string type. -/
def str (s : String) : Str := s.data

deriving instance DecidableEq for Except

/-! ## Middleware dispatch (src/src/utils.ts, `compose`/`dispatch`, lines 99-125)

The dispatcher walks a middleware array with a mutable `currentIndex`
captured by the `run` closure.  A middleware entry may be falsy
(`null`/`undefined`), in which case `dispatch` invokes the caller-supplied
terminal `next` directly.  We instrument execution with a trace of events:
`DEvent.run i` records that the middleware at index `i` started, and
`DEvent.term` records an invocation of the terminal `next`. -/

/-- Trace events recorded by the instrumented dispatcher. -/
inductive DEvent where
  | run (i : Nat)
  | term
deriving DecidableEq, Repr

/-- Instrumented middleware behaviours: a middleware either records its
index and invokes its `next` callback once (in tail position), or records
its index and returns without invoking `next`. -/
inductive MwB where
  | callsNext
  | stops
deriving DecidableEq, Repr

/-- The `run` closure of `dispatch` (src/src/utils.ts lines 110-123): the
state is the shared mutable `currentIndex` paired with the event trace.
If `currentIndex < middlewares.length` and the entry is truthy, the index
is incremented and the middleware runs (receiving `run` itself as `next`);
otherwise the terminal `next` is invoked.  `List.get?` returns `none` both
out of bounds and — via the inner `Option` — for a falsy array entry,
matching JavaScript's undefined-on-out-of-bounds indexing. -/
def dispatchRun (mws : List (Option MwB)) (s : Nat × List DEvent) : Nat × List DEvent :=
  if h : mws.get? s.1 = some (some MwB.callsNext) then
    dispatchRun mws (s.1 + 1, s.2 ++ [DEvent.run s.1])
  else if mws.get? s.1 = some (some MwB.stops) then
    (s.1 + 1, s.2 ++ [DEvent.run s.1])
  else
    (s.1, s.2 ++ [DEvent.term])
termination_by mws.length - s.1
decreasing_by
  rcases List.get?_eq_some.mp h with ⟨hlt, -⟩
  omega

/-- `dispatch` (src/src/utils.ts lines 103-125): the allocation-free path
invokes `next` when the middleware list is empty, otherwise it starts the
`run` closure at index 0. -/
def dispatch (mws : List (Option MwB)) (t0 : List DEvent) : Nat × List DEvent :=
  if mws.length = 0 then (0, t0 ++ [DEvent.term])
  else dispatchRun mws (0, t0)

theorem dispatchRun_all_callsNext (mws : List (Option MwB))
    (hall : ∀ x ∈ mws, x = some MwB.callsNext) :
    ∀ i t, i ≤ mws.length →
      dispatchRun mws (i, t) =
        (mws.length, t ++ (List.range' i (mws.length - i)).map DEvent.run ++ [DEvent.term]) := by
  intro i
  induction' hn : mws.length - i with n ih generalizing i
  · intro t hi
    have hii : i = mws.length := by omega
    have hnone : mws.get? i = none := List.get?_eq_none.mpr (by omega)
    unfold dispatchRun
    rw [dif_neg (by rw [hnone]; simp), if_neg (by rw [hnone]; simp)]
    simp [hii]
  · intro t hi
    have hlt : i < mws.length := by omega
    have hmem : mws.get ⟨i, hlt⟩ ∈ mws := List.get_mem mws i hlt
    have hx : mws.get? i = some (some MwB.callsNext) := by
      rw [List.get?_eq_get hlt, hall _ hmem]
    have hn' : mws.length - (i + 1) = n := by omega
    unfold dispatchRun
    rw [dif_pos hx]
    rw [ih (i + 1) hn' (t ++ [DEvent.run i]) (by omega)]
    rw [List.range'_succ]
    simp

/-- C1: with every middleware entry present and invoking its `next`, the
dispatcher of `compose`/`dispatch` records exactly the registration order
`0, 1, …, N-1`, and the caller-supplied terminal `next` runs exactly once,
after all `N` middlewares. -/
theorem compose_executes_in_registration_order (mws : List (Option MwB)) (t0 : List DEvent)
    (hall : ∀ x ∈ mws, x = some MwB.callsNext) :
    (dispatch mws t0).2 = t0 ++ (List.range mws.length).map DEvent.run ++ [DEvent.term] ∧
    ((dispatch mws t0).2.drop t0.length).count DEvent.term = 1 := by
  have hmain : (dispatch mws t0).2
      = t0 ++ (List.range mws.length).map DEvent.run ++ [DEvent.term] := by
    unfold dispatch
    by_cases h0 : mws.length = 0
    · simp [h0]
    · rw [if_neg h0, dispatchRun_all_callsNext mws hall 0 t0 (Nat.zero_le _)]
      simp [List.range_eq_range']
  refine ⟨hmain, ?_⟩
  rw [hmain]
  rw [List.append_assoc, List.drop_left' rfl]
  rw [List.count_append]
  have : (List.count DEvent.term ((List.range mws.length).map DEvent.run)) = 0 := by
    rw [List.count_eq_zero]
    intro hmem
    rcases List.mem_map.mp hmem with ⟨i, _, hbad⟩
    exact absurd hbad (by simp)
  simp [this, List.count_singleton]

/-- Witness for C1 with three middlewares. -/
theorem compose_executes_in_registration_order_witness :
    (dispatch [some MwB.callsNext, some MwB.callsNext, some MwB.callsNext] []).2
      = [DEvent.run 0, DEvent.run 1, DEvent.run 2, DEvent.term] :=
  (compose_executes_in_registration_order
      [some MwB.callsNext, some MwB.callsNext, some MwB.callsNext] []
      (by decide)).1.trans (by decide)

/-- C10: when the middleware list has a falsy entry at index `k` (and the
entries before it invoke `next`), the dispatcher reaches index `k`, invokes
the caller-supplied terminal `next` directly, and no middleware at an index
`≥ k` ever runs. -/
theorem dispatch_falsy_entry_short_circuits (mws : List (Option MwB)) (k : Nat) (t0 : List DEvent)
    (hk : mws.get? k = some none)
    (hbefore : ∀ i, i < k → mws.get? i = some (some MwB.callsNext)) :
    dispatch mws t0 = (k, t0 ++ (List.range k).map DEvent.run ++ [DEvent.term]) ∧
    ∀ j, k ≤ j → DEvent.run j ∉ (dispatch mws t0).2.drop t0.length := by
  have hklen : k < mws.length := by
    rcases List.get?_eq_some.mp hk with ⟨h, -⟩
    exact h
  have hstep : ∀ i t, i ≤ k →
      dispatchRun mws (i, t) = (k, t ++ (List.range' i (k - i)).map DEvent.run ++ [DEvent.term]) := by
    intro i
    induction' hn : k - i with n ih generalizing i
    · intro t hi
      have hik : i = k := by omega
      subst hik
      unfold dispatchRun
      rw [dif_neg (by rw [hk]; simp), if_neg (by rw [hk]; simp)]
      simp
    · intro t hi
      have hik : i < k := by omega
      have hn' : k - (i + 1) = n := by omega
      unfold dispatchRun
      rw [dif_pos (hbefore i hik)]
      rw [ih (i + 1) hn' (t ++ [DEvent.run i]) (by omega)]
      rw [List.range'_succ]
      simp
  have hmain : dispatch mws t0 = (k, t0 ++ (List.range k).map DEvent.run ++ [DEvent.term]) := by
    unfold dispatch
    rw [if_neg (by omega)]
    rw [hstep 0 t0 (Nat.zero_le _)]
    simp [List.range_eq_range']
  refine ⟨hmain, ?_⟩
  intro j hj hmem
  rw [hmain] at hmem
  simp only [List.append_assoc, List.drop_left' rfl] at hmem
  rcases List.mem_append.mp hmem with hmem | hmem
  · rcases List.mem_map.mp hmem with ⟨i, hi, hrun⟩
    have : i = j := by
      injection hrun
    rw [List.mem_range] at hi
    omega
  · simp at hmem

/-- Witness for C10: falsy entry at index 1 of a three-entry list. -/
theorem dispatch_falsy_entry_short_circuits_witness :
    dispatch [some MwB.callsNext, none, some MwB.callsNext] []
      = (1, [DEvent.run 0, DEvent.term]) :=
  (dispatch_falsy_entry_short_circuits [some MwB.callsNext, none, some MwB.callsNext] 1 []
      (by decide) (by decide)).1.trans (by decide)

/-! ## Mount point (src/unnamed/part_009, `mount`, lines 286-335)

`mount(path, middleware)` tests whether the context's route path starts
with the mount prefix (after stripping one trailing slash), strips the
prefix, runs the target, and restores the original path through the
latch-guarded `resetPathIfRequired` closure.  The context is modelled by
`MCtx`; `MGhost` holds instrumentation that no embedded source function
touches: `resetCount` counts executions of the latch-guarded restore body,
and `nextPaths` records the route path at each invocation of the outer
`next` (written only by the probe continuation used in the theorem). -/

/-- A promise settles either fulfilled or rejected. -/
inductive Outcome where
  | resolved
  | rejected
deriving DecidableEq, Repr

/-- The part of the request context that `mount` reads and writes:
`getRoutePath`/`setRoutePath` and the `routeHandled` flag. -/
structure MCtx where
  routePath : Str
  routeHandled : Bool

/-- Instrumentation state, threaded alongside the context. -/
structure MGhost where
  resetCount : Nat
  nextPaths : List Str

/-- Context plus instrumentation. -/
abbrev MState := MCtx × MGhost

/-- The possible behaviours of the mounted target `mx` for one
invocation, covering the three exit modes: settle without calling `next`
(`ret`, fulfilled or rejected), or mutate the context, invoke `next`
once, mutate again and settle (`callNext`; a rejection of `next`
propagates before the second mutation, as a promise chain would). -/
inductive Inner where
  | ret (f : MCtx → MCtx) (out : Outcome)
  | callNext (f g : MCtx → MCtx) (out : Outcome)

/-- `path.endsWith("/") ? path.slice(0, -1) : path` (part_009 line 290). -/
def stripTrailingSlash (path : Str) : Str :=
  if path.getLast? = some '/' then path.dropLast else path

/-- The `resetPathIfRequired` closure (part_009 lines 317-323): when the
latch `isRoutePathReset` is still false, restore the recorded pre-mount
route path and set the latch.  The ghost counter records one execution of
the restore body. -/
def resetPathIfRequired (original : Str) (s : MState) (latch : Bool) : MState × Bool :=
  if latch then (s, latch)
  else (({ s.1 with routePath := original }, { s.2 with resetCount := s.2.resetCount + 1 }), true)

/-- `mount` (part_009 lines 286-335), partially evaluated over the
`Inner` behaviour of the target: prefix test, path strip, then the target
runs with a wrapped `next` that restores the path and consults
`routeHandled` before delegating; the `.then`/`.catch` handlers run the
latch-guarded restore on settlement. -/
def mount (path : Str) (inner : Inner) (s : MState)
    (next : MState → MState × Outcome) : MState × Outcome :=
  let targetPath := stripTrailingSlash path
  let routePath := s.1.routePath
  if ¬ targetPath.isPrefixOf routePath then next s
  else
    let currentRoutePath := routePath.drop targetPath.length
    let s0 : MState := ({ s.1 with routePath := currentRoutePath }, s.2)
    match inner with
    | Inner.ret f out =>
        let s1 : MState := (f s0.1, s0.2)
        let r := resetPathIfRequired routePath s1 false
        (r.1, out)
    | Inner.callNext f g out =>
        let s1 : MState := (f s0.1, s0.2)
        let r2 := resetPathIfRequired routePath s1 false
        let p3 := if r2.1.1.routeHandled then (r2.1, Outcome.resolved) else next r2.1
        match p3.2 with
        | Outcome.rejected =>
            let r4 := resetPathIfRequired routePath p3.1 r2.2
            (r4.1, Outcome.rejected)
        | Outcome.resolved =>
            let s4 : MState := (g p3.1.1, p3.1.2)
            let r5 := resetPathIfRequired routePath s4 r2.2
            (r5.1, out)

/-- The target does not modify the route path after its `next` call
returns (routers and well-behaved middlewares satisfy this; they only pop
their own match bookkeeping there). -/
def Inner.keepsPathAfterNext : Inner → Prop
  | Inner.ret _ _ => True
  | Inner.callNext _ g _ => ∀ c, (g c).routePath = c.routePath

/-- A continuation that records the route path it is invoked at into the
ghost state and resolves. -/
def probeNext : MState → MState × Outcome :=
  fun s => ((s.1, { s.2 with nextPaths := s.2.nextPaths ++ [s.1.routePath] }), Outcome.resolved)

/-- C2: when the mount prefix matches the current route path, the
original route path is restored byte-for-byte on every exit mode
(fulfilled, rejected, or early `next` delegation), the latch-guarded
restoration body runs exactly once, and whenever the mount invokes the
outer `next` it does so with the route path already restored. -/
theorem mount_restores_path_exactly_once (path : Str) (inner : Inner) (s : MState)
    (hpre : (stripTrailingSlash path).isPrefixOf s.1.routePath = true)
    (hinner : Inner.keepsPathAfterNext inner) :
    (∀ next : MState → MState × Outcome,
      (∀ u, ((next u).1).1.routePath = u.1.routePath) →
      (∀ u, ((next u).1).2.resetCount = u.2.resetCount) →
      ((mount path inner s next).1.1.routePath = s.1.routePath ∧
       (mount path inner s next).1.2.resetCount = s.2.resetCount + 1))
    ∧ ((mount path inner s probeNext).1.2.nextPaths = s.2.nextPaths ∨
       (mount path inner s probeNext).1.2.nextPaths = s.2.nextPaths ++ [s.1.routePath]) := by
  constructor
  · intro next hpath hcount
    unfold mount
    rw [if_neg (by simp [hpre])]
    cases inner with
    | ret f out =>
        simp [resetPathIfRequired]
    | callNext f g out =>
        have hg : ∀ c, (g c).routePath = c.routePath := hinner
        simp only [resetPathIfRequired, Bool.false_eq_true, if_false]
        rcases hrh : (f { s.1 with routePath := s.1.routePath.drop (stripTrailingSlash path).length }).routeHandled with _ | _
        · simp only [hrh, Bool.false_eq_true, if_false]
          split <;> simp [hg, hpath, hcount]
        · simp [hrh, hg]
  · unfold mount
    rw [if_neg (by simp [hpre])]
    cases inner with
    | ret f out =>
        left
        simp [resetPathIfRequired]
    | callNext f g out =>
        simp only [resetPathIfRequired, Bool.false_eq_true, if_false]
        rcases hrh : (f { s.1 with routePath := s.1.routePath.drop (stripTrailingSlash path).length }).routeHandled with _ | _
        · right
          simp [hrh, probeNext]
        · left
          simp [hrh]

/-- Witness for C2: mounting at `/api` over `/api/x` with a target that
delegates to `next`. -/
theorem mount_restores_path_exactly_once_witness :
    (mount (str "/api") (Inner.callNext id id Outcome.resolved)
        (⟨str "/api/x", false⟩, ⟨0, []⟩) (fun u => (u, Outcome.resolved))).1.1.routePath
      = str "/api/x" ∧
    (mount (str "/api") (Inner.callNext id id Outcome.resolved)
        (⟨str "/api/x", false⟩, ⟨0, []⟩) (fun u => (u, Outcome.resolved))).1.2.resetCount = 1 :=
  (mount_restores_path_exactly_once (str "/api") (Inner.callNext id id Outcome.resolved)
      (⟨str "/api/x", false⟩, ⟨0, []⟩) (by decide) (fun c => rfl)).1
    (fun u => (u, Outcome.resolved)) (fun u => rfl) (fun u => rfl)

/-! ## Route parameters (src/src/router.ts, `createRouteParams` /
`decodeRouteParam`, lines 355-375)

`decodeRouteParam` wraps the platform's `decodeURIComponent` in a
`try`/`catch` that converts any decoding failure into an
`http-errors`-style error with status 400.  `createRouteParams` walks the
parameter keys in order, skipping falsy captures (absent or empty), and
assigns the decoded value (split on the key's delimiter when the key is
repeating) into the params object. -/

/-- An `http-errors` error value: `createError(status, message)`. -/
structure HttpErr where
  status : Nat
  message : Str
deriving DecidableEq, Repr

/-- A `path-to-regexp` parameter key: name, repeat flag, and delimiter. -/
structure Key where
  name : Str
  rep : Bool
  delimiter : Char
deriving DecidableEq, Repr

/-- A route parameter value: a string, or a list of strings for a
repeating key. -/
inductive ParamVal where
  | one (s : Str)
  | many (l : List Str)
deriving DecidableEq, Repr

/-- JavaScript object property read `l[k]`: first binding wins (the list
never holds duplicate keys because `insertVal` replaces in place). -/
def lookupVal {α : Type} : List (Str × α) → Str → Option α
  | [], _ => none
  | kv :: rest, k => if kv.1 == k then some kv.2 else lookupVal rest k

/-- JavaScript object assignment `l[k] = v`: replace an existing binding
in place (keeping its position), otherwise append at the end — the
insertion-order semantics of JS object keys. -/
def insertVal {α : Type} : List (Str × α) → Str → α → List (Str × α)
  | [], k, v => [(k, v)]
  | kv :: rest, k, v => if kv.1 == k then (k, v) :: rest else kv :: insertVal rest k v

/-- Value of a hexadecimal digit character. -/
def hexVal (c : Char) : Option Nat :=
  if '0' ≤ c ∧ c ≤ '9' then some (c.toNat - '0'.toNat)
  else if 'a' ≤ c ∧ c ≤ 'f' then some (c.toNat - 'a'.toNat + 10)
  else if 'A' ≤ c ∧ c ≤ 'F' then some (c.toNat - 'A'.toNat + 10)
  else none

/-- Modelled from the platform: ECMAScript `decodeURIComponent`,
restricted to single-byte escapes.  A `%` must be followed by two hex
digits; the modelled fragment covers ASCII bytes (multi-byte UTF-8
escape sequences are outside the model and mapped to `none`, i.e. to the
failure case).  `none` models a thrown `URIError`. -/
def percentDecode : Str → Option Str
  | [] => some []
  | '%' :: c1 :: c2 :: rest =>
      match hexVal c1, hexVal c2 with
      | some h1, some h2 =>
          if 16 * h1 + h2 < 128 then
            (percentDecode rest).map (fun t => Char.ofNat (16 * h1 + h2) :: t)
          else none
      | _, _ => none
  | '%' :: _ => none
  | c :: rest => (percentDecode rest).map (fun t => c :: t)

/-- `decodeRouteParam` (src/src/router.ts lines 369-375): decode, and on
failure throw `createError(400, ...)`. -/
def decodeRouteParam (param : Str) : Except HttpErr Str :=
  match percentDecode param with
  | some s => Except.ok s
  | none => Except.error ⟨400, str "failed to decode param " ++ param⟩

/-- JavaScript `String.split` with a single-character separator. -/
def splitOnChar (delim : Char) : Str → List Str
  | [] => [[]]
  | c :: rest =>
    let r := splitOnChar delim rest
    if c = delim then [] :: r
    else
      match r with
      | [] => [[c]]
      | h :: t => (c :: h) :: t

/-- The loop of `createRouteParams` (src/src/router.ts lines 358-365):
`i` is the loop index, `param = match[i + 1]` is read from the capture
groups, falsy captures are skipped, and the decoded (and, for repeating
keys, split) value is assigned to `params[key.name]`. -/
def createRouteParamsAux (groups : List (Option Str)) :
    List Key → Nat → List (Str × ParamVal) → Except HttpErr (List (Str × ParamVal))
  | [], _, params => Except.ok params
  | key :: rest, i, params =>
    match (groups.get? i).join with
    | none => createRouteParamsAux groups rest (i + 1) params
    | some p =>
      if p.isEmpty then createRouteParamsAux groups rest (i + 1) params
      else
        match decodeRouteParam p with
        | Except.error e => Except.error e
        | Except.ok d =>
          let v := if key.rep then ParamVal.many (splitOnChar key.delimiter d) else ParamVal.one d
          createRouteParamsAux groups rest (i + 1) (insertVal params key.name v)

/-- `createRouteParams` (src/src/router.ts lines 355-367); `groups`
models `match[1..]`, and the optional initial params object defaults to
`{}` as in `params = params || {}`. -/
def createRouteParams (groups : List (Option Str)) (keys : List Key)
    (params0 : Option (List (Str × ParamVal))) : Except HttpErr (List (Str × ParamVal)) :=
  createRouteParamsAux groups keys 0 (params0.getD [])

theorem decodeRouteParam_error_status {p : Str} {e : HttpErr}
    (h : decodeRouteParam p = Except.error e) : e.status = 400 := by
  unfold decodeRouteParam at h
  rcases hd : percentDecode p with _ | s
  · rw [hd] at h
    cases h
    rfl
  · rw [hd] at h
    cases h

theorem createRouteParamsAux_error_status (groups : List (Option Str)) :
    ∀ (keys : List Key) (i : Nat) (params : List (Str × ParamVal)) (e : HttpErr),
      createRouteParamsAux groups keys i params = Except.error e → e.status = 400 := by
  intro keys
  induction keys with
  | nil =>
      intro i params e h
      cases h
  | cons key rest ih =>
      intro i params e h
      unfold createRouteParamsAux at h
      rcases hg : (groups.get? i).join with _ | p
      · rw [hg] at h
        exact ih (i + 1) params e h
      · rw [hg] at h
        dsimp only at h
        by_cases hp : p.isEmpty
        · rw [if_pos hp] at h
          exact ih (i + 1) params e h
        · rw [if_neg hp] at h
          rcases hdec : decodeRouteParam p with e2 | d
          · rw [hdec] at h
            cases h
            exact decodeRouteParam_error_status hdec
          · rw [hdec] at h
            exact ih (i + 1) _ e h

theorem lookupVal_insertVal_self {α : Type} (l : List (Str × α)) (k : Str) (v : α) :
    lookupVal (insertVal l k v) k = some v := by
  induction l with
  | nil => simp [insertVal, lookupVal]
  | cons kv rest ih =>
      unfold insertVal
      by_cases hk : kv.1 == k
      · rw [if_pos hk]
        simp [lookupVal]
      · rw [if_neg hk]
        unfold lookupVal
        rw [if_neg hk]
        exact ih

theorem lookupVal_insertVal_ne {α : Type} (l : List (Str × α)) (k k2 : Str) (v : α)
    (hne2 : k2 ≠ k) :
    lookupVal (insertVal l k v) k2 = lookupVal l k2 := by
  have hk12 : ¬ ((k == k2) = true) := by
    simp only [beq_iff_eq]
    exact fun h => hne2 h.symm
  induction l with
  | nil =>
      unfold insertVal lookupVal
      rw [if_neg hk12]
      rfl
  | cons kv rest ih =>
      unfold insertVal
      by_cases hk : kv.1 == k
      · rw [if_pos hk]
        have hkv : kv.1 = k := by simpa using hk
        unfold lookupVal
        rw [if_neg hk12, if_neg (by rw [hkv]; exact hk12)]
      · rw [if_neg hk]
        unfold lookupVal
        by_cases hkv2 : kv.1 == k2
        · rw [if_pos hkv2, if_pos hkv2]
        · rw [if_neg hkv2, if_neg hkv2]
          exact ih

theorem createRouteParamsAux_frame (groups : List (Option Str)) :
    ∀ (keys : List Key) (i : Nat) (params ps : List (Str × ParamVal)) (k : Str),
      createRouteParamsAux groups keys i params = Except.ok ps →
      k ∉ keys.map Key.name →
      lookupVal ps k = lookupVal params k := by
  intro keys
  induction keys with
  | nil =>
      intro i params ps k h hk
      cases h
      rfl
  | cons key rest ih =>
      intro i params ps k h hk
      simp only [List.map_cons, List.mem_cons, not_or] at hk
      rcases hk with ⟨hk1, hk2⟩
      unfold createRouteParamsAux at h
      rcases hg : (groups.get? i).join with _ | p
      · rw [hg] at h
        exact ih (i + 1) params ps k h hk2
      · rw [hg] at h
        dsimp only at h
        by_cases hp : p.isEmpty
        · rw [if_pos hp] at h
          exact ih (i + 1) params ps k h hk2
        · rw [if_neg hp] at h
          rcases hdec : decodeRouteParam p with e2 | d
          · rw [hdec] at h
            cases h
          · rw [hdec] at h
            rw [ih (i + 1) _ ps k h hk2]
            exact lookupVal_insertVal_ne _ _ _ _ hk1

theorem createRouteParamsAux_decodes (groups : List (Option Str)) :
    ∀ (keys : List Key) (i : Nat) (params ps : List (Str × ParamVal)),
      (keys.map Key.name).Nodup →
      createRouteParamsAux groups keys i params = Except.ok ps →
      ∀ (j : Nat) (key : Key) (p : Str), keys.get? j = some key → key.rep = false →
        (groups.get? (i + j)).join = some p → p ≠ [] →
        ∃ d, percentDecode p = some d ∧ lookupVal ps key.name = some (ParamVal.one d) := by
  intro keys
  induction keys with
  | nil =>
      intro i params ps _ _ j key p hj
      cases hj
  | cons key0 rest ih =>
      intro i params ps hnodup h j key p hj hrep hgp hpne
      have hnodup2 : (rest.map Key.name).Nodup := by
        simp only [List.map_cons, List.nodup_cons] at hnodup
        exact hnodup.2
      have hnotin : key0.name ∉ rest.map Key.name := by
        simp only [List.map_cons, List.nodup_cons] at hnodup
        exact hnodup.1
      cases j with
      | zero =>
          cases hj
          simp only [Nat.add_zero] at hgp
          unfold createRouteParamsAux at h
          rw [hgp] at h
          dsimp only at h
          have hpf : p.isEmpty = false := by
            cases p with
            | nil => exact absurd rfl hpne
            | cons c t => rfl
          rw [if_neg (by simp [hpf])] at h
          rcases hdec : decodeRouteParam p with e2 | d
          · rw [hdec] at h
            cases h
          · rw [hdec] at h
            dsimp only at h
            refine ⟨d, ?_, ?_⟩
            · unfold decodeRouteParam at hdec
              rcases hpd : percentDecode p with _ | s
              · rw [hpd] at hdec
                cases hdec
              · rw [hpd] at hdec
                cases hdec
                rfl
            · have hframe := createRouteParamsAux_frame groups rest (i + 1) _ ps key0.name h hnotin
              rw [hframe]
              rw [hrep] at *
              simp [lookupVal_insertVal_self]
      | succ j2 =>
          have hj2 : rest.get? j2 = some key := hj
          unfold createRouteParamsAux at h
          rcases hg : (groups.get? i).join with _ | p0
          · rw [hg] at h
            have := ih (i + 1) params ps hnodup2 h j2 key p hj2 hrep (by
              have : i + 1 + j2 = i + (j2 + 1) := by omega
              rw [this]; exact hgp) hpne
            exact this
          · rw [hg] at h
            dsimp only at h
            by_cases hp0 : p0.isEmpty
            · rw [if_pos hp0] at h
              exact ih (i + 1) params ps hnodup2 h j2 key p hj2 hrep (by
                have : i + 1 + j2 = i + (j2 + 1) := by omega
                rw [this]; exact hgp) hpne
            · rw [if_neg hp0] at h
              rcases hdec : decodeRouteParam p0 with e2 | d
              · rw [hdec] at h
                cases h
              · rw [hdec] at h
                exact ih (i + 1) _ ps hnodup2 h j2 key p hj2 hrep (by
                  have : i + 1 + j2 = i + (j2 + 1) := by omega
                  rw [this]; exact hgp) hpne

/-- C8: parameter extraction percent-decodes every non-empty captured
value of a named key, and any decoding failure surfaces as a client
error carrying status 400 — never another fault. -/
theorem route_params_decode_or_400 (groups : List (Option Str)) (keys : List Key) :
    (∀ e, createRouteParams groups keys none = Except.error e → e.status = 400) ∧
    ((keys.map Key.name).Nodup →
      ∀ ps, createRouteParams groups keys none = Except.ok ps →
        ∀ (j : Nat) (key : Key) (p : Str), keys.get? j = some key → key.rep = false →
          (groups.get? j).join = some p → p ≠ [] →
          ∃ d, percentDecode p = some d ∧ lookupVal ps key.name = some (ParamVal.one d)) := by
  constructor
  · intro e h
    exact createRouteParamsAux_error_status groups keys 0 [] e h
  · intro hnodup ps h j key p hj hrep hg hpne
    exact createRouteParamsAux_decodes groups keys 0 [] ps hnodup h j key p hj hrep
      (by simpa using hg) hpne

/-- Witness for C8: `/users/:id` against `/users/42%20x` decodes to
`42 x`; against `/users/%` the extraction fails with a 400 error. -/
theorem route_params_decode_or_400_witness :
    (HttpErr.mk 400 (str "failed to decode param " ++ str "%")).status = 400 ∧
    ∃ d, percentDecode (str "42%20x") = some d ∧
      lookupVal [(str "id", ParamVal.one (str "42 x"))] (str "id") = some (ParamVal.one d) :=
  ⟨(route_params_decode_or_400 [some (str "%")] [⟨str "id", false, '/'⟩]).1
      ⟨400, str "failed to decode param " ++ str "%"⟩ (by decide),
   (route_params_decode_or_400 [some (str "42%20x")] [⟨str "id", false, '/'⟩]).2
      (by decide) [(str "id", ParamVal.one (str "42 x"))] (by decide)
      0 ⟨str "id", false, '/'⟩ (str "42%20x") (by decide) (by decide) (by decide) (by decide)⟩

/-! ## Router route table (src/src/router.ts, lines 181-261)

A compiled matcher (`RegExp`) is modelled abstractly by `RegExpM`: its
`source` string is its identity (the source compares
`x.test.source === route.source` when deduplicating descriptors) and
`exec` is its structural matching behaviour — `none` for no match, or
`match[0]` (the consumed text) together with the capture groups
`match[1..]`.  Handlers are identified by numeric ids (`JsFun.fn`);
`JsFun.notCallable` stands for a non-function value passed where a
handler is expected. -/

/-- Abstract compiled matcher. -/
structure RegExpM where
  source : Str
  exec : Str → Option (Str × List (Option Str))

/-- A registered route definition: handler identity plus the recorded
parameter keys (`null` for routes supplied directly as a `RegExp`). -/
structure RouteDefinitionM where
  handler : Nat
  paramKeys : Option (List Key)
deriving DecidableEq, Repr

/-- A route descriptor: compiled matcher plus the per-method definition
map. -/
structure RouteDescriptorM where
  test : RegExpM
  definitions : List (Str × RouteDefinitionM)

/-- A JavaScript value passed as a handler. -/
inductive JsFun where
  | fn (id : Nat)
  | notCallable
deriving DecidableEq, Repr

/-- `_defineRegExpRoute` (src/src/router.ts lines 196-205): find the
first descriptor whose matcher has the same source and set its
definition for `method` in place; otherwise push a fresh descriptor. -/
def defineRegExpRoute : List RouteDescriptorM → RegExpM → Str → Nat → Option (List Key) →
    List RouteDescriptorM
  | [], route, method, handlerId, paramKeys =>
      [⟨route, insertVal [] method ⟨handlerId, paramKeys⟩⟩]
  | x :: rest, route, method, handlerId, paramKeys =>
      if x.test.source == route.source then
        { x with definitions := insertVal x.definitions method ⟨handlerId, paramKeys⟩ } :: rest
      else x :: defineRegExpRoute rest route method handlerId paramKeys

/-- `define` (src/src/router.ts lines 181-188) for a `RegExp` route: the
only registration-time error is the `TypeError` thrown for a
non-function handler; duplicate registration is not an error. -/
def define (routes : List RouteDescriptorM) (route : RegExpM) (method : Str)
    (handler : JsFun) : Except Str (List RouteDescriptorM) :=
  match handler with
  | JsFun.fn id => Except.ok (defineRegExpRoute routes route method id none)
  | JsFun.notCallable => Except.error (str "handler not valid")

/-- The canonical `MatchResult` (src/src/router.ts lines 36-43):
`path = match[0]`, `data` holds the capture groups `match[1..]`; the
`router` and `descriptor` back-references are omitted from the model
(reference identity is modelled as structural equality of the remaining
fields). -/
structure MatchResultM where
  route : RouteDefinitionM
  data : List (Option Str)
  params : Option (List (Str × ParamVal))
  path : Str
deriving DecidableEq, Repr

/-- `_match` (src/src/router.ts lines 227-261): scan the descriptor list
in registration order; on a structural match resolve the method
(exact, then GET for HEAD, then the `*` wildcard); a resolvable match
returns, an unresolvable one continues the scan unless `breakEarly`
(the `exhaustive` option) is set.  `createRouteParams` runs only when
the winning definition recorded parameter keys, and its failure
propagates. -/
def matchRoutes (breakEarly : Bool) (method targetPath : Str) :
    List RouteDescriptorM → Except HttpErr (Option MatchResultM)
  | [] => Except.ok none
  | x :: rest =>
    match x.test.exec targetPath with
    | none => matchRoutes breakEarly method targetPath rest
    | some m =>
      let m1 := lookupVal x.definitions method
      let m2 := match m1 with
        | some d => some d
        | none => if method == str "HEAD" then lookupVal x.definitions (str "GET") else none
      let m3 := match m2 with
        | some d => some d
        | none => lookupVal x.definitions (str "*")
      match m3 with
      | some d =>
        match (match d.paramKeys with
               | some ks => Except.map some (createRouteParams m.2 ks none)
               | none => Except.ok none) with
        | Except.error e => Except.error e
        | Except.ok params =>
            Except.ok (some { route := d, data := m.2, params := params, path := m.1 })
      | none =>
        if breakEarly then Except.ok none
        else matchRoutes breakEarly method targetPath rest

/-- `Router.match` (src/src/router.ts lines 223-225): delegate to
`_match` over the route list with the router's `exhaustive` option
(false under `Router.Defaults`). -/
def routerMatch (routes : List RouteDescriptorM) (exhaustive : Bool)
    (path method : Str) : Except HttpErr (Option MatchResultM) :=
  matchRoutes exhaustive method path routes

theorem lookupVal_mem {α : Type} {l : List (Str × α)} {k : Str} {v : α}
    (h : lookupVal l k = some v) : v ∈ l.map (fun kv => kv.2) := by
  induction l with
  | nil => cases h
  | cons kv rest ih =>
      unfold lookupVal at h
      by_cases hk : kv.1 == k
      · rw [if_pos hk] at h
        injection h with h2
        rw [← h2]
        exact List.mem_map_of_mem _ (List.mem_cons_self kv rest)
      · rw [if_neg hk] at h
        simp only [List.map_cons, List.mem_cons]
        exact Or.inr (ih h)

/-- C5: within a structurally matching descriptor, the returned route
definition follows the resolution order exact method → (HEAD only) GET →
wildcard `*` → no match. -/
theorem match_method_resolution_order (x : RouteDescriptorM) (method path : Str) (exh : Bool)
    (m0 : Str × List (Option Str)) (hexec : x.test.exec path = some m0)
    (hkeys : ∀ d ∈ x.definitions.map (fun kv => kv.2), d.paramKeys = none) :
    routerMatch [x] exh path method
      = Except.ok
          ((match lookupVal x.definitions method with
            | some d => some d
            | none =>
              match (if method == str "HEAD" then lookupVal x.definitions (str "GET") else none) with
              | some d => some d
              | none => lookupVal x.definitions (str "*")).map
            (fun d => { route := d, data := m0.2, params := none, path := m0.1 })) := by
  unfold routerMatch matchRoutes
  rw [hexec]
  dsimp only
  rcases h1 : lookupVal x.definitions method with _ | d1
  · rcases h2 : (if method == str "HEAD" then lookupVal x.definitions (str "GET") else none)
        with _ | d2
    · rcases h3 : lookupVal x.definitions (str "*") with _ | d3
      · simp [h1, h2, h3, matchRoutes]
      · have hd3 : d3.paramKeys = none := by
          apply hkeys
          rcases lookupVal_mem h3 with hmem
          exact hmem
        simp [h1, h2, h3, hd3]
    · have hd2 : d2.paramKeys = none := by
        apply hkeys
        rcases h2if : method == str "HEAD" with _ | _
        · rw [h2if] at h2
          simp at h2
        · rw [h2if] at h2
          simp only [if_true] at h2
          exact lookupVal_mem h2
      simp [h1, h2, hd2]
  · have hd1 : d1.paramKeys = none := hkeys _ (lookupVal_mem h1)
    simp [h1, hd1]

/-- Witness for C5: a descriptor registered only for GET satisfies a
HEAD request with the same definition. -/
theorem match_method_resolution_order_witness :
    routerMatch
        [⟨⟨str "hello", fun p => if p == str "/hello" then some (p, []) else none⟩,
          [(str "GET", ⟨7, none⟩)]⟩] false (str "/hello") (str "HEAD")
      = Except.ok (some (MatchResultM.mk ⟨7, none⟩ [] none (str "/hello"))) := by
  rw [match_method_resolution_order _ _ _ _ (str "/hello", [])
        (by decide) (by decide)]
  decide

theorem defineRegExpRoute_not_found (routes : List RouteDescriptorM) (re : RegExpM)
    (method : Str) (hid : Nat) (pk : Option (List Key))
    (hclean : ∀ x ∈ routes, (x.test.source == re.source) = false) :
    defineRegExpRoute routes re method hid pk
      = routes ++ [⟨re, insertVal [] method ⟨hid, pk⟩⟩] := by
  induction routes with
  | nil => rfl
  | cons x rest ih =>
      unfold defineRegExpRoute
      rw [if_neg (by rw [hclean x (List.mem_cons_self x rest)]; simp)]
      rw [ih (fun y hy => hclean y (List.mem_cons_of_mem x hy))]
      rfl

theorem defineRegExpRoute_update_appended (routes : List RouteDescriptorM) (re : RegExpM)
    (defs : List (Str × RouteDefinitionM)) (method : Str) (hid : Nat) (pk : Option (List Key))
    (hclean : ∀ x ∈ routes, (x.test.source == re.source) = false) :
    defineRegExpRoute (routes ++ [⟨re, defs⟩]) re method hid pk
      = routes ++ [⟨re, insertVal defs method ⟨hid, pk⟩⟩] := by
  induction routes with
  | nil =>
      rw [List.nil_append]
      unfold defineRegExpRoute
      rw [if_pos (by simp)]
      rfl
  | cons x rest ih =>
      rw [List.cons_append]
      unfold defineRegExpRoute
      rw [if_neg (by rw [hclean x (List.mem_cons_self x rest)]; simp)]
      rw [ih (fun y hy => hclean y (List.mem_cons_of_mem x hy))]
      rfl

theorem matchRoutes_cons_none (b : Bool) (method tp : Str) (x : RouteDescriptorM)
    (rest : List RouteDescriptorM) (hx : x.test.exec tp = none) :
    matchRoutes b method tp (x :: rest) = matchRoutes b method tp rest := by
  conv_lhs => rw [matchRoutes]
  rw [hx]

theorem matchRoutes_skip (b : Bool) (method tp : Str) (l1 l2 : List RouteDescriptorM)
    (h : ∀ x ∈ l1, x.test.exec tp = none) :
    matchRoutes b method tp (l1 ++ l2) = matchRoutes b method tp l2 := by
  induction l1 with
  | nil => rfl
  | cons x rest ih =>
      rw [List.cons_append,
        matchRoutes_cons_none b method tp x (rest ++ l2) (h x (List.mem_cons_self x rest))]
      exact ih (fun y hy => h y (List.mem_cons_of_mem x hy))

/-- C7: registering a second handler for the same (pattern, method) pair
raises no duplicate-registration error, and a subsequent match resolves
to the second handler (last registration wins). -/
theorem define_duplicate_last_wins (routes0 : List RouteDescriptorM) (re : RegExpM)
    (method : Str) (id1 id2 : Nat) (path : Str) (m0 : Str × List (Option Str))
    (hclean : ∀ x ∈ routes0, (x.test.source == re.source) = false)
    (hnomatch : ∀ x ∈ routes0, x.test.exec path = none)
    (hexec : re.exec path = some m0) :
    ∃ l1 l2,
      define routes0 re method (JsFun.fn id1) = Except.ok l1 ∧
      define l1 re method (JsFun.fn id2) = Except.ok l2 ∧
      routerMatch l2 false path method
        = Except.ok (some (MatchResultM.mk ⟨id2, none⟩ m0.2 none m0.1)) := by
  refine ⟨defineRegExpRoute routes0 re method id1 none,
          defineRegExpRoute (defineRegExpRoute routes0 re method id1 none) re method id2 none,
          rfl, rfl, ?_⟩
  · rw [defineRegExpRoute_not_found routes0 re method id1 none hclean]
    rw [defineRegExpRoute_update_appended routes0 re _ method id2 none hclean]
    unfold routerMatch
    rw [matchRoutes_skip false method path routes0 _ hnomatch]
    have hins : insertVal (insertVal ([] : List (Str × RouteDefinitionM)) method ⟨id1, none⟩)
        method ⟨id2, none⟩ = [(method, ⟨id2, none⟩)] := by
      simp [insertVal]
    rw [hins]
    unfold matchRoutes
    rw [hexec]
    simp [lookupVal]

/-- A tiny literal matcher standing for the compiled pattern of
`/hello`. -/
def reHello : RegExpM :=
  ⟨str "hello", fun p => if p == str "/hello" then some (p, []) else none⟩

/-- Witness for C7: two GET registrations on the same pattern, the match
returns the second handler. -/
theorem define_duplicate_last_wins_witness :
    ∃ l1 l2,
      define [] reHello (str "GET") (JsFun.fn 1) = Except.ok l1 ∧
      define l1 reHello (str "GET") (JsFun.fn 2) = Except.ok l2 ∧
      routerMatch l2 false (str "/hello") (str "GET")
        = Except.ok (some (MatchResultM.mk ⟨2, none⟩ [] none (str "/hello"))) :=
  define_duplicate_last_wins [] reHello (str "GET") 1 2 (str "/hello") (str "/hello", [])
    (by simp) (by simp) (by decide)

/-! ## Route context (src/src/route-context.ts, `RouteContext`, lines 3-59)

`_matches` is `undefined` until the first push (modelled `none`);
`_pendingRoutePath` is the unconsumed path; `_currentMatch` tracks the
most recent match.  `push` appends, merges params, and strips the
consumed prefix from the pending path; `pop` removes the last match,
re-derives `_currentMatch`, and prepends the consumed prefix back.
`pop` on a context without matches throws (modelled as `none`). -/

structure RouteContext where
  params : Option (List (Str × ParamVal))
  matchesList : Option (List MatchResultM)
  pendingRoutePath : Str
  currentMatch : Option MatchResultM
deriving DecidableEq, Repr

/-- JavaScript `Object.assign(target, source)` over the params object:
later entries overwrite earlier ones. -/
def objAssign {α : Type} (target source : List (Str × α)) : List (Str × α) :=
  source.foldl (fun acc kv => insertVal acc kv.1 kv.2) target

/-- `RouteContext.push` (src/src/route-context.ts lines 13-27): append
the match (creating the array on first use), merge truthy params, strip
the consumed prefix from the pending path when `match.path` is truthy
(non-empty), and point `_currentMatch` at the new match. -/
def RouteContext.push (rc : RouteContext) (m : MatchResultM) : RouteContext :=
  let matchesList := match rc.matchesList with
    | some l => some (l ++ [m])
    | none => some [m]
  let params := match m.params with
    | some ps => some (objAssign (rc.params.getD []) ps)
    | none => rc.params
  let pending := if m.path.isEmpty then rc.pendingRoutePath
                 else rc.pendingRoutePath.drop m.path.length
  { params := params, matchesList := matchesList, pendingRoutePath := pending, currentMatch := some m }

/-- `RouteContext.pop` (src/src/route-context.ts lines 29-34): remove
the last match, set `_currentMatch` from `_getLastMatch`, and prepend
the popped match's consumed path.  `none` models the `TypeError` thrown
when `_matches` is still `undefined` or the popped element is
`undefined`. -/
def RouteContext.pop (rc : RouteContext) : Option (RouteContext × MatchResultM) :=
  match rc.matchesList with
  | none => none
  | some l =>
    match l.getLast? with
    | none => none
    | some m =>
      let rest := l.dropLast
      let current := if rest.isEmpty then none else rest.getLast?
      some
        ({ rc with
            matchesList := some rest
            currentMatch := current
            pendingRoutePath := m.path ++ rc.pendingRoutePath }, m)

/-- The abstract stack content of the match stack (`undefined` and the
empty array both denote the empty stack). -/
def RouteContext.matchStack (rc : RouteContext) : List MatchResultM := rc.matchesList.getD []

/-- `_getLastMatch` (src/src/route-context.ts lines 52-59) as a function
of the abstract stack. -/
def RouteContext.lastMatch (rc : RouteContext) : Option MatchResultM := rc.matchStack.getLast?

theorem isPrefixOf_append_drop (p l : Str) (h : p.isPrefixOf l = true) :
    p ++ l.drop p.length = l := by
  rcases List.isPrefixOf_iff_prefix.mp h with ⟨t, ht⟩
  rw [← ht, List.drop_left]

/-- C3: on a route context satisfying the class invariant
(`_currentMatch` is the last pushed match) whose pending path starts
with `match.path`, `push` followed by `pop` returns the pushed match and
restores the pending path, the match stack, and the current-match
pointer to their prior values. -/
theorem push_pop_exact_inverse (rc : RouteContext) (m : MatchResultM)
    (hpre : m.path.isPrefixOf rc.pendingRoutePath = true)
    (hinv : rc.currentMatch = rc.lastMatch) :
    ∃ rc2, (rc.push m).pop = some (rc2, m) ∧
      rc2.pendingRoutePath = rc.pendingRoutePath ∧
      rc2.matchStack = rc.matchStack ∧
      rc2.currentMatch = rc.currentMatch := by
  have hstack : (rc.push m).matchesList = some (rc.matchStack ++ [m]) := by
    unfold RouteContext.push RouteContext.matchStack
    rcases rc.matchesList with _ | l <;> simp
  have hpend : m.path ++ (rc.push m).pendingRoutePath = rc.pendingRoutePath := by
    unfold RouteContext.push
    dsimp only
    by_cases hp : m.path.isEmpty
    · rw [if_pos hp]
      have : m.path = [] := by
        cases hmp : m.path
        · rfl
        · rw [hmp] at hp
          cases hp
      rw [this]
      rfl
    · rw [if_neg hp]
      exact isPrefixOf_append_drop _ _ hpre
  refine ⟨RouteContext.mk (rc.push m).params (some rc.matchStack)
      (m.path ++ (rc.push m).pendingRoutePath) rc.matchStack.getLast?, ?_, ?_, ?_, ?_⟩
  · unfold RouteContext.pop
    rw [hstack]
    dsimp only
    rw [List.getLast?_concat]
    dsimp only
    rw [List.dropLast_concat]
    rcases hms : rc.matchStack with _ | ⟨a, t⟩ <;> simp [hms]
  · dsimp only
    exact hpend
  · unfold RouteContext.matchStack
    rfl
  · dsimp only
    rw [hinv]
    rfl

/-- Witness for C3: push then pop on a fresh context over `/a/b` with a
match that consumed `/a`. -/
theorem push_pop_exact_inverse_witness :
    ∃ rc2, ((RouteContext.mk none none (str "/a/b") none).push
        (MatchResultM.mk ⟨1, none⟩ [] none (str "/a"))).pop
        = some (rc2, MatchResultM.mk ⟨1, none⟩ [] none (str "/a")) ∧
      rc2.pendingRoutePath = str "/a/b" ∧
      rc2.matchStack = [] ∧
      rc2.currentMatch = none :=
  push_pop_exact_inverse (RouteContext.mk none none (str "/a/b") none)
    (MatchResultM.mk ⟨1, none⟩ [] none (str "/a")) (by decide) (by decide)

/-! ## Canonical router request handling (src/src/router.ts, `routeHandler`,
lines 281-333)

`routeHandler` reads the pending route path, matches, and on a match
pushes onto the route context, runs the matched handler, and pops via the
latch-and-identity-guarded `resetIfNeeded` on every exit path.  It never
consults the context's `routeHandled` flag.  The context slice it touches
is `RCtx`; `trace` is instrumentation recording handler invocations.
This embedding models a router whose own middleware list is empty
(`_middlewares` undefined), which takes the direct
`match.route.handler(context, nextHandler)` path. -/

/-- The context slice used by the canonical `routeHandler`. -/
structure RCtx where
  routeHandled : Bool
  routeData : RouteContext
  method : Str
  trace : List Nat

/-- Exit behaviours of a matched route handler for one invocation
(settle directly, or call its `next` once and then settle). -/
inductive RHandlerB where
  | ret (f : RCtx → RCtx) (out : Outcome)
  | callNext (f g : RCtx → RCtx) (out : Outcome)

/-- `resetIfNeeded` (src/src/router.ts lines 294-301): pop the match
exactly once, and only when it is still the current match.  The `none`
branch of `pop` is unreachable under the guard. -/
def resetIfNeeded (m : MatchResultM) (c : RCtx) (latch : Bool) : RCtx × Bool :=
  if latch then (c, latch)
  else
    (if c.routeData.currentMatch = some m then
      match c.routeData.pop with
      | some (rd2, _) => { c with routeData := rd2 }
      | none => c
    else c, true)

/-- `routeHandler` (src/src/router.ts lines 281-333) for a router with
no own middlewares: match against the pending path; on a match push it,
run the handler with a `next` wired to pop-then-delegate, and pop via
the guarded reset on settlement; on no match delegate to `next`.  The
`routeHandled` flag is never read. -/
def routeHandler (routes : List RouteDescriptorM) (exh : Bool) (henv : Nat → RHandlerB)
    (ctx : RCtx) (next : RCtx → RCtx × Outcome) : RCtx × Outcome :=
  let path := ctx.routeData.pendingRoutePath
  match routerMatch routes exh path ctx.method with
  | Except.error _ => (ctx, Outcome.rejected)
  | Except.ok none => next ctx
  | Except.ok (some m) =>
    let ctx1 := { ctx with routeData := ctx.routeData.push m }
    match henv m.route.handler with
    | RHandlerB.ret f out =>
        let c2 := f ctx1
        let r := resetIfNeeded m c2 false
        (r.1, out)
    | RHandlerB.callNext f g out =>
        let c2 := f ctx1
        let r2 := resetIfNeeded m c2 false
        let p3 := next r2.1
        match p3.2 with
        | Outcome.rejected =>
            let r4 := resetIfNeeded m p3.1 r2.2
            (r4.1, Outcome.rejected)
        | Outcome.resolved =>
            let c4 := g p3.1
            let r5 := resetIfNeeded m c4 r2.2
            (r5.1, out)

/-- One GET route for `/hello`, handler id 7. -/
def routesHello : List RouteDescriptorM := [⟨reHello, [(str "GET", ⟨7, none⟩)]⟩]

/-- A handler environment whose handlers record their id and resolve. -/
def henvTrace : Nat → RHandlerB :=
  fun id => RHandlerB.ret (fun c => { c with trace := c.trace ++ [id] }) Outcome.resolved

/-- A request context whose `routeHandled` flag is already set. -/
def ctxHandled : RCtx :=
  { routeHandled := true, routeData := RouteContext.mk none none (str "/hello") none,
    method := str "GET", trace := [] }

/-- C4 counterexample: the `build()`/`routeHandler` router of
src/src/router.ts performs no `routeHandled` check — invoked on a
context whose `routeHandled` flag is already set, it still performs the
match and invokes the matched route handler (the handler's trace entry
appears), contradicting the claim at this input. -/
theorem routeHandler_ignores_routeHandled_flag :
    ctxHandled.routeHandled = true ∧
    ((routeHandler routesHello false henvTrace ctxHandled
        (fun c => (c, Outcome.resolved))).1).trace = [7] := by
  constructor
  · rfl
  · decide

/-! ## asMiddleware router variant (src/unnamed/part_018, lines 47-332)

The older router keeps an exact-literal path table (`_pathRoutes`) and a
compiled-pattern list (`_regExpRoutes`).  `match` consults the exact
table first and only then the pattern scan.  The `asMiddleware` route
handler short-circuits on `ctx.routeHandled`. -/

/-- part_018 `RouteDefinition` — the handler field may hold a falsy
value, since `define` performs no callable check there. -/
structure RouteDefinition018 where
  handler : Option Nat
  paramKeys : Option (List Key)
deriving DecidableEq, Repr

/-- A descriptor in the exact-literal path table. -/
structure PathDescriptor018 where
  definitions : List (Str × RouteDefinition018)
deriving DecidableEq, Repr

/-- A descriptor in the compiled-pattern list. -/
structure RegExpDescriptor018 where
  test : RegExpM
  definitions : List (Str × RouteDefinition018)

/-- part_018 router state: exact-literal table plus pattern list. -/
structure Router018 where
  pathRoutes : List (Str × PathDescriptor018)
  regexpRoutes : List RegExpDescriptor018

/-- part_018 `MatchResult` (no consumed-path field; path-table matches
carry no match data and no params). -/
structure MatchResult018 where
  route : RouteDefinition018
  data : Option (Str × List (Option Str))
  params : Option (List (Str × ParamVal))
deriving DecidableEq, Repr

/-- `_matchPathRoutes` (part_018 lines 231-251): O(1) exact-path lookup,
then the method-resolution chain (exact → HEAD-to-GET → wildcard). -/
def matchPathRoutes018 (routes : List (Str × PathDescriptor018)) (method targetPath : Str) :
    Option MatchResult018 :=
  match lookupVal routes targetPath with
  | none => none
  | some d =>
    let r1 := lookupVal d.definitions method
    let r2 := match r1 with
      | some x => some x
      | none => if method == str "HEAD" then lookupVal d.definitions (str "GET") else none
    let r3 := match r2 with
      | some x => some x
      | none => lookupVal d.definitions (str "*")
    match r3 with
    | some x => some { route := x, data := none, params := none }
    | none => none

/-- `_matchRegExpRoutes` (part_018 lines 253-286).  The `find` callback
tests `if (!methodResult)` where the surrounding logic requires
`if (methodResult)`: a descriptor whose method resolves is skipped (the
callback returns `false` and the scan continues with `result` still
null), while a structural match whose method does not resolve
dereferences null (`methodResult.paramKeys`), throwing a `TypeError`
(modelled as `Except.error ()`). -/
def matchRegExpRoutes018 (method targetPath : Str) :
    List RegExpDescriptor018 → Except Unit (Option MatchResult018)
  | [] => Except.ok none
  | x :: rest =>
    match x.test.exec targetPath with
    | none => matchRegExpRoutes018 method targetPath rest
    | some _ =>
      let r1 := lookupVal x.definitions method
      let r2 := match r1 with
        | some d => some d
        | none => if method == str "HEAD" then lookupVal x.definitions (str "GET") else none
      let r3 := match r2 with
        | some d => some d
        | none => lookupVal x.definitions (str "*")
      match r3 with
      | none => Except.error ()
      | some _ => matchRegExpRoutes018 method targetPath rest

/-- `Router.match` (part_018 lines 225-229): normalise a leading slash,
try the exact table, and only on a null result scan the pattern list. -/
def match018 (r : Router018) (path method : Str) : Except Unit (Option MatchResult018) :=
  let targetPath := if (str "/").isPrefixOf path then path else '/' :: path
  match matchPathRoutes018 r.pathRoutes method targetPath with
  | some res => Except.ok (some res)
  | none => matchRegExpRoutes018 method targetPath r.regexpRoutes

/-- A part_018 router holding one compiled pattern for `/hello` with a
GET definition (handler id 3). -/
def router018Hello : Router018 :=
  { pathRoutes := [], regexpRoutes := [⟨reHello, [(str "GET", ⟨some 3, none⟩)]⟩] }

/-- C6: evaluation of part_018 `Router.match` at the failing input — the
pattern list contains a descriptor that structurally matches `/hello`
and has a GET definition, yet `match("/hello", "GET")` yields no match
because the inverted `if (!methodResult)` check makes the scan skip
every resolvable descriptor. -/
theorem match018_pattern_scan_never_matches :
    match018 router018Hello (str "/hello") (str "GET") = Except.ok none := by
  decide

/-- A part_018-era context slice for the `asMiddleware` route handler:
the flag, request method, current route path, a ghost record of
`routeData.add` calls (by handler id), and a handler-invocation trace. -/
structure Ctx018 where
  routeHandled : Bool
  method : Str
  routePath : Str
  routeDataAdds : List Nat
  trace : List Nat
deriving DecidableEq, Repr

/-- A part_018 middleware/handler over `Ctx018`. -/
def H018 : Type :=
  Ctx018 → (Ctx018 → Ctx018 × Outcome) → Ctx018 × Outcome

/-- The `routeHandler` closure of `asMiddleware` (part_018 lines
309-327): short-circuit when `ctx.routeHandled` is set; otherwise match,
and on a match with a truthy handler mark the route handled, record the
match into the route data, and run the handler; otherwise delegate. -/
def routeHandler018 (r : Router018) (henv : Nat → H018) (ctx : Ctx018)
    (next : Ctx018 → Ctx018 × Outcome) : Ctx018 × Outcome :=
  if ctx.routeHandled then (ctx, Outcome.resolved)
  else
    match match018 r ctx.routePath ctx.method with
    | Except.error _ => (ctx, Outcome.rejected)
    | Except.ok none => next ctx
    | Except.ok (some m) =>
      match m.route.handler with
      | some h =>
          let ctx1 :=
            { ctx with
                routeHandled := true
                routeDataAdds := ctx.routeDataAdds ++ [h] }
          henv h ctx1 next
      | none => next ctx

/-- C4 (amended): in the `asMiddleware` router variant the short-circuit
holds — on a context whose `routeHandled` flag is already set, the
router middleware resolves immediately with the context unchanged,
independent of the route table, the handlers, and the continuation (so
no match attempt, no handler invocation, and no route-state mutation);
the `build()`/`routeHandler` variant performs no such check. -/
theorem asMiddleware_routeHandled_short_circuits (r : Router018) (henv : Nat → H018)
    (ctx : Ctx018) (next : Ctx018 → Ctx018 × Outcome) (h : ctx.routeHandled = true) :
    routeHandler018 r henv ctx next = (ctx, Outcome.resolved) := by
  unfold routeHandler018
  rw [if_pos h]

/-- Witness for the amended C4. -/
theorem asMiddleware_routeHandled_short_circuits_witness :
    routeHandler018 router018Hello (fun _ => fun c _ => (c, Outcome.resolved))
        (Ctx018.mk true (str "GET") (str "/hello") [] [])
        (fun c => (c, Outcome.resolved))
      = (Ctx018.mk true (str "GET") (str "/hello") [] [], Outcome.resolved) :=
  asMiddleware_routeHandled_short_circuits router018Hello
    (fun _ => fun c _ => (c, Outcome.resolved))
    (Ctx018.mk true (str "GET") (str "/hello") [] [])
    (fun c => (c, Outcome.resolved)) rfl

/-! ## Shutdown manager (src/src/server-utils.ts, `ShutdownManager`,
lines 68-167)

The manager's bookkeeping is modelled as a transition system over the
platform events it subscribes to.  `shutdownInit` is the state after the
body of `shutdown(gracePeriodMs, callback)` has run (the `setImmediate`
callback of lines 94-110): the listening socket is closing and the close
callback is registered (modelled as taking effect at the
`serverCloseFired` event, per the transport contract that listen-socket
closure is requested here), `shutdownRequested` is set, the grace timer
is armed when the period is finite, and idle connections are sent a FIN.
Ghost fields record the externally visible effects: `calls` holds the
arguments of the shutdown-callback invocations, `ended` the sockets sent
a graceful FIN, `destroyed` the force-destroyed sockets. -/

structure SMState where
  counts : List (Nat × Nat)
  shutdownRequested : Bool
  cbPending : Bool
  closeCbArmed : Bool
  timerArmed : Bool
  destroyScheduled : Bool
  calls : List Bool
  ended : List Nat
  destroyed : List Nat
deriving DecidableEq, Repr

/-- `Map.get` over the socket → in-flight-count map. -/
def countsGet : List (Nat × Nat) → Nat → Option Nat
  | [], _ => none
  | kv :: rest, k => if kv.1 == k then some kv.2 else countsGet rest k

/-- `Map.set` over the socket → in-flight-count map. -/
def countsSet : List (Nat × Nat) → Nat → Nat → List (Nat × Nat)
  | [], k, v => [(k, v)]
  | kv :: rest, k, v => if kv.1 == k then (k, v) :: rest else kv :: countsSet rest k v

/-- Platform events delivered to the manager after shutdown was
requested: the server's close callback firing, a socket close, a
response finishing, the grace timer elapsing, and the `setImmediate`
destroy phase scheduled by `_destroySockets`. -/
inductive SMEvent where
  | serverCloseFired
  | socketClosed (i : Nat)
  | responseFinished (i : Nat)
  | graceTimeout
  | destroyPhase
deriving DecidableEq, Repr

/-- `_invokeAndResetShutdownListeners` (lines 126-134): the listener
list is nulled before the stored callback runs, so a second invocation
is a no-op. -/
def invokeAndReset (s : SMState) (isForcedExit : Bool) : SMState :=
  if s.cbPending then { s with cbPending := false, calls := s.calls ++ [isForcedExit] }
  else s

/-- One step of the manager: the event handlers of
src/src/server-utils.ts lines 95-161 as state transitions. -/
def smStep (s : SMState) : SMEvent → SMState
  | SMEvent.serverCloseFired =>
    if s.closeCbArmed then
      let s1 := { s with closeCbArmed := false }
      if s1.counts.isEmpty then { s1 with calls := s1.calls ++ [false] }
      else { s1 with cbPending := true }
    else s
  | SMEvent.socketClosed i =>
    let s1 := { s with counts := s.counts.filter (fun kv => !(kv.1 == i)) }
    if s1.shutdownRequested && s1.counts.isEmpty then invokeAndReset s1 false else s1
  | SMEvent.responseFinished i =>
    match countsGet s.counts i with
    | none => s
    | some n =>
      let s1 := { s with counts := countsSet s.counts i (n - 1) }
      if s1.shutdownRequested && (n - 1) == 0 then { s1 with ended := s1.ended ++ [i] } else s1
  | SMEvent.graceTimeout =>
    if s.timerArmed then
      { s with
          timerArmed := false
          destroyScheduled := true
          ended := s.ended ++ s.counts.map (fun kv => kv.1) }
    else s
  | SMEvent.destroyPhase =>
    if s.destroyScheduled then
      invokeAndReset
        { s with
            destroyScheduled := false
            destroyed := s.destroyed ++ s.counts.map (fun kv => kv.1) }
        true
    else s

/-- State right after the `shutdown(gracePeriodMs, callback)` body ran,
given the tracked connection map `c0` and whether the grace period is
finite. -/
def shutdownInit (c0 : List (Nat × Nat)) (graceFinite : Bool) : SMState :=
  { counts := c0, shutdownRequested := true, cbPending := false, closeCbArmed := true,
    timerArmed := graceFinite, destroyScheduled := false, calls := [],
    ended := (c0.filter (fun kv => kv.2 == 0)).map (fun kv => kv.1), destroyed := [] }

/-- Run a sequence of platform events. -/
def smRun (s : SMState) (es : List SMEvent) : SMState := es.foldl smStep s

/-- Connection-drain events: socket closes and response completions. -/
def SMEvent.isDrainEvt : SMEvent → Bool
  | SMEvent.socketClosed _ => true
  | SMEvent.responseFinished _ => true
  | _ => false

/-- Safety invariant carrying at-most-once: the callback has been stored
at most once, and once invoked it is neither stored nor armed. -/
def SMInv (s : SMState) : Prop :=
  s.calls.length ≤ 1 ∧
  (s.closeCbArmed = true → s.cbPending = false ∧ s.calls = []) ∧
  (s.cbPending = true → s.calls = [])

theorem smStep_inv (s : SMState) (e : SMEvent) (h : SMInv s) : SMInv (smStep s e) := by
  rcases h with ⟨h1, h2, h3⟩
  cases e with
  | serverCloseFired =>
      unfold smStep
      dsimp only
      by_cases ha : s.closeCbArmed = true
      · rcases h2 ha with ⟨hcb, hcalls⟩
        rw [if_pos ha]
        by_cases he : s.counts.isEmpty = true
        · rw [if_pos he]
          exact ⟨by simp [hcalls], by simp, by simp [hcb]⟩
        · rw [if_neg he]
          exact ⟨by simpa using h1, by simp, by simpa using hcalls⟩
      · rw [if_neg ha]
        exact ⟨h1, h2, h3⟩
  | socketClosed i =>
      unfold smStep
      dsimp only
      by_cases hc :
          (s.shutdownRequested && (s.counts.filter (fun kv => !(kv.1 == i))).isEmpty) = true
      · rw [if_pos hc]
        unfold invokeAndReset
        dsimp only
        by_cases hp : s.cbPending = true
        · rw [if_pos hp]
          exact ⟨by simp [h3 hp], fun hh => absurd hp (by simp [(h2 hh).1]), by simp⟩
        · rw [if_neg hp]
          exact ⟨h1, fun hh => h2 hh, h3⟩
      · rw [if_neg hc]
        exact ⟨h1, h2, h3⟩
  | responseFinished i =>
      unfold smStep
      dsimp only
      rcases hg : countsGet s.counts i with _ | n <;> dsimp only
      · exact ⟨h1, h2, h3⟩
      · by_cases hc : (s.shutdownRequested && (n - 1) == 0) = true
        · rw [if_pos hc]
          exact ⟨h1, h2, h3⟩
        · rw [if_neg hc]
          exact ⟨h1, h2, h3⟩
  | graceTimeout =>
      unfold smStep
      dsimp only
      by_cases ht : s.timerArmed = true
      · rw [if_pos ht]
        exact ⟨h1, h2, h3⟩
      · rw [if_neg ht]
        exact ⟨h1, h2, h3⟩
  | destroyPhase =>
      unfold smStep
      dsimp only
      by_cases hd : s.destroyScheduled = true
      · rw [if_pos hd]
        unfold invokeAndReset
        dsimp only
        by_cases hp : s.cbPending = true
        · rw [if_pos hp]
          exact ⟨by simp [h3 hp], fun hh => absurd hp (by simp [(h2 hh).1]), by simp⟩
        · rw [if_neg hp]
          exact ⟨h1, fun hh => h2 hh, h3⟩
      · rw [if_neg hd]
        exact ⟨h1, h2, h3⟩

theorem smRun_inv (s : SMState) (es : List SMEvent) (h : SMInv s) : SMInv (smRun s es) := by
  induction es generalizing s with
  | nil => exact h
  | cons e rest ih => exact ih (smStep s e) (smStep_inv s e h)

/-- Drain invariant after the close callback fired: the callback is
pending exactly while connections remain, and has been invoked with
`false` exactly when the map has drained. -/
def SMDrain (s : SMState) : Prop :=
  s.shutdownRequested = true ∧ s.closeCbArmed = false ∧ s.timerArmed = true ∧
  (if s.counts.isEmpty then s.calls = [false] ∧ s.cbPending = false
   else s.calls = [] ∧ s.cbPending = true)

theorem countsSet_not_empty (l : List (Nat × Nat)) (k v : Nat) (h : l.isEmpty = false) :
    (countsSet l k v).isEmpty = false := by
  cases l with
  | nil => cases h
  | cons kv rest =>
      unfold countsSet
      by_cases hk : kv.1 == k
      · rw [if_pos hk]
        rfl
      · rw [if_neg hk]
        rfl

theorem smStep_drain (s : SMState) (e : SMEvent) (hd : SMDrain s)
    (he : e.isDrainEvt = true) : SMDrain (smStep s e) := by
  rcases hd with ⟨hs, hc, ht, hrest⟩
  cases e with
  | serverCloseFired => cases he
  | graceTimeout => cases he
  | destroyPhase => cases he
  | socketClosed i =>
      unfold smStep
      dsimp only
      by_cases hemp : (s.counts.filter (fun kv => !(kv.1 == i))).isEmpty = true
      · rw [if_pos (by rw [hs, hemp]; rfl)]
        by_cases hemp0 : s.counts.isEmpty = true
        · rw [if_pos hemp0] at hrest
          unfold invokeAndReset
          dsimp only
          rw [if_neg (by rw [hrest.2]; simp)]
          exact ⟨hs, hc, ht, by simp [hemp, hrest.1, hrest.2]⟩
        · rw [if_neg hemp0] at hrest
          unfold invokeAndReset
          dsimp only
          rw [if_pos hrest.2]
          exact ⟨hs, hc, ht, by simp [hemp, hrest.1]⟩
      · rw [if_neg (by simp only [Bool.and_eq_true, not_and]; intro _ hcon; exact hemp hcon)]
        have hemp0 : s.counts.isEmpty = false := by
          cases hcc : s.counts with
          | nil =>
              exfalso
              rw [hcc] at hemp
              simp at hemp
          | cons a t => rfl
        rw [if_neg (by rw [hemp0]; simp)] at hrest
        exact ⟨hs, hc, ht, by rw [if_neg hemp]; exact hrest⟩
  | responseFinished i =>
      unfold smStep
      dsimp only
      rcases hg : countsGet s.counts i with _ | n <;> dsimp only
      · exact ⟨hs, hc, ht, hrest⟩
      · have hemp0 : s.counts.isEmpty = false := by
          cases hcc : s.counts with
          | nil => rw [hcc] at hg; cases hg
          | cons a t => rfl
        have hemp1 : (countsSet s.counts i (n - 1)).isEmpty = false :=
          countsSet_not_empty _ _ _ hemp0
        rw [if_neg (by rw [hemp0]; simp)] at hrest
        have hneg1 : ¬ ((countsSet s.counts i (n - 1)).isEmpty = true) := by
          rw [hemp1]
          simp
        by_cases hcnd : (s.shutdownRequested && (n - 1) == 0) = true
        · rw [if_pos hcnd]
          exact ⟨hs, hc, ht, by rw [if_neg hneg1]; exact hrest⟩
        · rw [if_neg hcnd]
          exact ⟨hs, hc, ht, by rw [if_neg hneg1]; exact hrest⟩

theorem smRun_drain (s : SMState) (es : List SMEvent) (hd : SMDrain s)
    (he : ∀ e ∈ es, e.isDrainEvt = true) : SMDrain (smRun s es) := by
  induction es generalizing s with
  | nil => exact hd
  | cons e rest ih =>
      exact ih (smStep s e) (smStep_drain s e hd (he e (List.mem_cons_self e rest)))
        (fun x hx => he x (List.mem_cons_of_mem e hx))

theorem smStep_graceTimeout_armed (s : SMState) (ht : s.timerArmed = true) :
    smStep s SMEvent.graceTimeout =
      { s with
          timerArmed := false
          destroyScheduled := true
          ended := s.ended ++ s.counts.map (fun kv => kv.1) } := by
  unfold smStep
  dsimp only
  rw [if_pos ht]

theorem smStep_destroyPhase_scheduled (s : SMState) (hd : s.destroyScheduled = true) :
    smStep s SMEvent.destroyPhase =
      invokeAndReset
        { s with
            destroyScheduled := false
            destroyed := s.destroyed ++ s.counts.map (fun kv => kv.1) }
        true := by
  unfold smStep
  dsimp only
  rw [if_pos hd]

/-- C9: for a `shutdown(gracePeriodMs, callback)` call (finite grace
period, close callback registered first), the callback is invoked at
most once along every event sequence; when every tracked connection
closes under drain events alone (no timeout), it has been invoked
exactly once with `false`; and when the grace period elapses first
(connections remain), the destroy phase force-destroys every remaining
socket and invokes it exactly once with `true`. -/
theorem shutdown_callback_semantics (c0 : List (Nat × Nat)) :
    (∀ (g : Bool) (es : List SMEvent), (smRun (shutdownInit c0 g) es).calls.length ≤ 1) ∧
    (∀ es, (∀ e ∈ es, e.isDrainEvt = true) →
      (smRun (smStep (shutdownInit c0 true) SMEvent.serverCloseFired) es).counts.isEmpty = true →
      (smRun (smStep (shutdownInit c0 true) SMEvent.serverCloseFired) es).calls = [false]) ∧
    (∀ es, (∀ e ∈ es, e.isDrainEvt = true) →
      (smRun (smStep (shutdownInit c0 true) SMEvent.serverCloseFired) es).counts.isEmpty = false →
      (smStep (smStep (smRun (smStep (shutdownInit c0 true) SMEvent.serverCloseFired) es)
          SMEvent.graceTimeout) SMEvent.destroyPhase).calls = [true] ∧
      (∀ kv ∈ (smRun (smStep (shutdownInit c0 true) SMEvent.serverCloseFired) es).counts,
        kv.1 ∈ (smStep (smStep (smRun (smStep (shutdownInit c0 true) SMEvent.serverCloseFired) es)
          SMEvent.graceTimeout) SMEvent.destroyPhase).destroyed)) := by
  have hinit : ∀ g : Bool, SMInv (shutdownInit c0 g) := by
    intro g
    exact ⟨by simp [shutdownInit], by simp [shutdownInit], by simp [shutdownInit]⟩
  have hdrain0 : SMDrain (smStep (shutdownInit c0 true) SMEvent.serverCloseFired) := by
    unfold smStep shutdownInit
    dsimp only
    rw [if_pos rfl]
    by_cases hemp : c0.isEmpty = true
    · rw [if_pos hemp]
      exact ⟨rfl, rfl, rfl, by simp [hemp]⟩
    · rw [if_neg hemp]
      exact ⟨rfl, rfl, rfl, by simp [hemp]⟩
  refine ⟨?_, ?_, ?_⟩
  · intro g es
    exact (smRun_inv (shutdownInit c0 g) es (hinit g)).1
  · intro es hdr hemp
    have hd := smRun_drain _ es hdrain0 hdr
    rcases hd with ⟨-, -, -, hrest⟩
    rw [hemp] at hrest
    simpa using hrest.1
  · intro es hdr hemp
    have hd := smRun_drain _ es hdrain0 hdr
    rcases hd with ⟨-, -, ht, hrest⟩
    rw [hemp] at hrest
    simp only [Bool.false_eq_true, if_false] at hrest
    constructor
    · rw [smStep_graceTimeout_armed _ ht, smStep_destroyPhase_scheduled _ rfl]
      unfold invokeAndReset
      dsimp only
      rw [if_pos hrest.2]
      dsimp only
      rw [hrest.1]
      rfl
    · intro kv hkv
      rw [smStep_graceTimeout_armed _ ht, smStep_destroyPhase_scheduled _ rfl]
      unfold invokeAndReset
      dsimp only
      rw [if_pos hrest.2]
      dsimp only
      exact List.mem_append.mpr (Or.inr (List.mem_map_of_mem _ hkv))

/-- Witness for C9, matching the spec's example — one connection with
one in-flight request: if the request finishes and the socket closes
before the timer, the callback gets `false`; if nothing drains before
the grace period elapses, the destroy phase reports `true`. -/
theorem shutdown_callback_semantics_witness :
    (smRun (smStep (shutdownInit [(0, 1)] true) SMEvent.serverCloseFired)
        [SMEvent.responseFinished 0, SMEvent.socketClosed 0]).calls = [false] ∧
    (smStep (smStep (smRun (smStep (shutdownInit [(0, 1)] true) SMEvent.serverCloseFired) [])
        SMEvent.graceTimeout) SMEvent.destroyPhase).calls = [true] :=
  ⟨(shutdown_callback_semantics [(0, 1)]).2.1
      [SMEvent.responseFinished 0, SMEvent.socketClosed 0] (by decide) (by decide),
   ((shutdown_callback_semantics [(0, 1)]).2.2 [] (by decide) (by decide)).1⟩

end HttpMicro
